import Mathlib

/-!
Verification development for the 404-container responder.

The repository contains three Rust source files:
  * `main.rs`  — a self-contained binary: the line extractor, a request
    parser (`HTTPRequestMessage`), the per-connection status decision block,
    and the response serializer (`HTTPResponseMessage::to_vec`);
  * `http.rs`  — a library module with a truncating request parser
    (`RequestMessage`) and a status decider (`RequestMessage::response`);
  * `utils.rs` — the same line extractor as the one in `main.rs`.

Bytes are modelled as `Nat`, byte buffers as `List Nat`, the socket as a
list of read results.  Every definition is a direct transcription of the
corresponding Rust item; comments name the Rust source of each one.
-/

/-- `BUFFER_LENGTH` from `main.rs` (`BUFFER_LEN` in `utils.rs`): chunk size. -/
def BUFFER_LENGTH : Nat := 16

/-- `REQUEST_CAP` from `main.rs`: `BUFFER_LENGTH * 4096`. -/
def REQUEST_CAP : Nat := BUFFER_LENGTH * 4096

/-- `SEP` from `main.rs`: the space byte. -/
def SEP : Nat := 32

/-- `CRLF` from `main.rs`: carriage return, line feed. -/
def CRLF : List Nat := [13, 10]

/-- ASCII bytes of a string literal; used to transcribe Rust byte-string
literals such as `b"GET"`. -/
def bytes (s : String) : List Nat :=
  s.toList.map Char.toNat

/-- Decimal rendering of a number as ASCII bytes; transcribes
`u16::to_string().as_bytes()`. -/
def natToBytes (n : Nat) : List Nat :=
  (Nat.repr n).toList.map Char.toNat

/-- One result of `stream.read(&mut buf)`: either `Ok(size)` together with
the bytes written into the front of the buffer, or an error. -/
inductive ReadResult where
  | ok : List Nat → ReadResult
  | err : ReadResult
deriving DecidableEq

/-- Index of the first carriage-return byte, exactly as
`buf.iter().position(|i| i == &CRLF[0])` computes it. -/
def firstCR : List Nat → Option Nat
  | [] => none
  | b :: l => if b = 13 then some 0 else (firstCR l).map (· + 1)

/-- The buffer after a read of `data.length` bytes: the read overwrites the
front of the 16-byte buffer, the tail keeps its previous contents. -/
def refill (buf data : List Nat) : List Nat :=
  data ++ buf.drop data.length

/-- The `size` after the terminator scan: `if let Some(pos) = ... { size = pos }`. -/
def crSize (buf2 : List Nat) (len : Nat) : Nat :=
  match firstCR buf2 with
  | some pos => pos
  | none => len

/-- The `size` after the capacity check:
`if request.len() + size > REQUEST_CAP { size = REQUEST_CAP - request.len() }`. -/
def capSize (reqLen s : Nat) : Nat :=
  if reqLen + s > REQUEST_CAP then REQUEST_CAP - reqLen else s

/-- The read loop of `extract` (`main.rs` lines 152-172, `utils.rs` lines
15-35), with the accumulated `request` and the transient 16-byte `buf` made
explicit.  A short read, a zero read, or an error breaks the loop. -/
def extractLoop : List ReadResult → List Nat → List Nat → List Nat
  | [], request, _ => request
  | .err :: _, request, _ => request
  | .ok data :: rest, request, buf =>
    if 0 < data.length then
      if capSize request.length (crSize (refill buf data) data.length) < BUFFER_LENGTH then
        request ++ (refill buf data).take
          (capSize request.length (crSize (refill buf data) data.length))
      else
        extractLoop rest
          (request ++ (refill buf data).take
            (capSize request.length (crSize (refill buf data) data.length)))
          (refill buf data)
    else request

/-- `extract` from `main.rs`/`utils.rs`: empty accumulator, zeroed buffer. -/
def extract (rs : List ReadResult) : List Nat :=
  extractLoop rs [] (List.replicate BUFFER_LENGTH 0)

/-- A read result fits the 16-byte buffer.  `stream.read(&mut buf)` can
never report more bytes than the buffer holds; universally quantified
theorems about `extract` assume this of every read. -/
def chunkFits : ReadResult → Prop
  | .ok d => d.length ≤ BUFFER_LENGTH
  | .err => True

instance (r : ReadResult) : Decidable (chunkFits r) :=
  match r with
  | .ok d => inferInstanceAs (Decidable (d.length ≤ BUFFER_LENGTH))
  | .err => isTrue trivial

/-- Modelled from the claim's stream model: the bytes the peer delivers.
Delivery ends at the first error, the first zero-byte read, or the first
read shorter than the 16-byte chunk (whose bytes are still delivered). -/
def deliveredBytes : List ReadResult → List Nat
  | [] => []
  | .err :: _ => []
  | .ok d :: rest => if d.length = BUFFER_LENGTH then d ++ deliveredBytes rest else d

/-- Split at the first space byte, separator removed; `none` when there is
no space.  Building block for `splitn`. -/
def splitAtSep : List Nat → Option (List Nat × List Nat)
  | [] => none
  | b :: l =>
    if b = SEP then some ([], l)
    else (splitAtSep l).map (fun pq => (b :: pq.1, pq.2))

/-- Rust's `slice.splitn(n, |char| char == &SEP)`: at most `n` parts, the
last part keeps the remaining separators. -/
def splitnSep : Nat → List Nat → List (List Nat)
  | 0, _ => []
  | 1, xs => [xs]
  | n + 2, xs =>
    match splitAtSep xs with
    | none => [xs]
    | some pq => pq.1 :: splitnSep (n + 1) pq.2

namespace HttpRs

/-- `VERSION_CAP` from `http.rs`. -/
def VERSION_CAP : Nat := 8

/-- `METHOD_CAP` from `http.rs`. -/
def METHOD_CAP : Nat := 7

/-- `PATH_CAP` from `http.rs`. -/
def PATH_CAP : Nat := REQUEST_CAP - VERSION_CAP - METHOD_CAP - 2

/-- `VERSIONS` from `http.rs`: two entries, no `HTTP/2`. -/
def VERSIONS : List (List Nat) := [bytes ("HTTP/1.0"), bytes ("HTTP/1.1")]

/-- `METHODS` from `http.rs`. -/
def METHODS : List (List Nat) :=
  [bytes ("GET"), bytes ("HEAD"), bytes ("POST"), bytes ("PUT"),
   bytes ("DELETE"), bytes ("OPTIONS"), bytes ("PATCH"), bytes ("TRACE")]

/-- `RequestMessage` from `http.rs`. -/
structure RequestMessage where
  method : List Nat
  path : List Nat
  http : List Nat
deriving DecidableEq

/-- `RequestMessage::new`. -/
def RequestMessage.new : RequestMessage :=
  { method := [], path := [], http := [] }

/-- `RequestMessage::is_method_valid`. -/
def RequestMessage.is_method_valid (r : RequestMessage) : Bool :=
  METHODS.contains r.method

/-- `RequestMessage::is_path_valid`: `self.path.starts_with(b"/")`. -/
def RequestMessage.is_path_valid (r : RequestMessage) : Bool :=
  match r.path with
  | b :: _ => b == 47
  | [] => false

/-- `RequestMessage::is_http_valid`. -/
def RequestMessage.is_http_valid (r : RequestMessage) : Bool :=
  VERSIONS.contains r.http

/-- `RequestMessage::is_empty`. -/
def RequestMessage.is_empty (r : RequestMessage) : Bool :=
  r.method.isEmpty && r.path.isEmpty && r.http.isEmpty

/-- `RequestMessage::is_ascii`: every field all-ASCII. -/
def RequestMessage.is_ascii (r : RequestMessage) : Bool :=
  r.method.all (fun b => b ≤ 127) && r.path.all (fun b => b ≤ 127) &&
    r.http.all (fun b => b ≤ 127)

/-- One arm of the `match num` in `impl From<&[u8]> for RequestMessage`:
assign part number `num`, truncated to the field cap; the `unreachable!()`
arm is the `none` case. -/
def RequestMessage.assign (r : RequestMessage) (num : Nat) (src : List Nat) :
    Option RequestMessage :=
  match num with
  | 0 => some { r with method := if src.length > METHOD_CAP then src.take METHOD_CAP else src }
  | 1 => some { r with path := if src.length > PATH_CAP then src.take PATH_CAP else src }
  | 2 => some { r with http := if src.length > VERSION_CAP then src.take VERSION_CAP else src }
  | _ => none

/-- The `for (num, src) in ... .enumerate()` loop of the `From` impl. -/
def assignParts : Nat → List (List Nat) → RequestMessage → Option RequestMessage
  | _, [], r => some r
  | num, src :: rest, r => (r.assign num src).bind (assignParts (num + 1) rest)

/-- The initial slice of the `From` impl: input truncated to `REQUEST_CAP`. -/
def capSlice (value : List Nat) : List Nat :=
  if value.length > REQUEST_CAP then value.take REQUEST_CAP else value

/-- `impl From<&[u8]> for RequestMessage`, with the `unreachable!()` arm
surfaced as `none`. -/
def RequestMessage.ofBytesChecked (value : List Nat) : Option RequestMessage :=
  assignParts 0 (splitnSep 3 (capSlice value)) RequestMessage.new

/-- The parser as callers see it (the panic arm is proven unreachable). -/
def RequestMessage.ofBytes (value : List Nat) : RequestMessage :=
  (RequestMessage.ofBytesChecked value).getD RequestMessage.new

/-- `ResponseMessage` from `http.rs`. -/
structure ResponseMessage where
  http : List Nat
  code : Nat
  desc : List Nat
  headers : List (List Nat)
deriving DecidableEq

/-- `ResponseMessage::with_status`: version is `VERSIONS[1]`, the single
header is the literal `Connection: close`. -/
def ResponseMessage.with_status (code : Nat) (desc : List Nat) : ResponseMessage :=
  { http := VERSIONS.getD 1 [], code := code, desc := desc,
    headers := [bytes ("Connection: close")] }

/-- `RESP_200` from `http.rs`. -/
def RESP_200 : ResponseMessage := ResponseMessage.with_status 200 (bytes ("OK"))

/-- `RESP_400` from `http.rs`. -/
def RESP_400 : ResponseMessage := ResponseMessage.with_status 400 (bytes ("Bad Request"))

/-- `RESP_404` from `http.rs`. -/
def RESP_404 : ResponseMessage := ResponseMessage.with_status 404 (bytes ("Not Found"))

/-- `RESP_405` from `http.rs`. -/
def RESP_405 : ResponseMessage := ResponseMessage.with_status 405 (bytes ("Method Not Allowed"))

/-- `RESP_505` from `http.rs`. -/
def RESP_505 : ResponseMessage :=
  ResponseMessage.with_status 505 (bytes ("HTTP Version Not Supported"))

/-- `RequestMessage::response` from `http.rs`: the status decider of the
library module (note: it has no 414 branch, and path validity is part of
the 400 condition). -/
def RequestMessage.response (r : RequestMessage) : ResponseMessage :=
  if r.is_empty || !r.is_ascii || !r.is_path_valid then RESP_400
  else if !r.is_method_valid then RESP_405
  else if !r.is_http_valid then RESP_505
  else if r.path == bytes ("/healthz") then RESP_200
  else RESP_404

end HttpRs

namespace MainRs

/-- `VERSIONS` from `main.rs` line 18: three entries, `HTTP/2` included. -/
def VERSIONS : List (List Nat) := [bytes ("HTTP/1.0"), bytes ("HTTP/1.1"), bytes ("HTTP/2")]

/-- `METHODS` from `main.rs`. -/
def METHODS : List (List Nat) :=
  [bytes ("GET"), bytes ("HEAD"), bytes ("POST"), bytes ("PUT"),
   bytes ("DELETE"), bytes ("OPTIONS"), bytes ("PATCH"), bytes ("TRACE")]

/-- `HTTPRequestMessage` from `main.rs`.  The `Vec::with_capacity` sizes in
`HTTPRequestMessage::new` only pre-allocate; the vectors start empty. -/
structure HTTPRequestMessage where
  method : List Nat
  path : List Nat
  http : List Nat
deriving DecidableEq

/-- `HTTPRequestMessage::new`: three empty vectors. -/
def HTTPRequestMessage.new : HTTPRequestMessage :=
  { method := [], path := [], http := [] }

/-- `HTTPRequestMessage::is_method_valid`. -/
def HTTPRequestMessage.is_method_valid (r : HTTPRequestMessage) : Bool :=
  METHODS.contains r.method

/-- `HTTPRequestMessage::is_http_valid`. -/
def HTTPRequestMessage.is_http_valid (r : HTTPRequestMessage) : Bool :=
  VERSIONS.contains r.http

/-- `result[i].extend_from_slice(v)` through `IndexMut`: the panic arm
`_ => panic!("invalid index")` is the `none` case. -/
def HTTPRequestMessage.extendIdx (r : HTTPRequestMessage) (i : Nat) (v : List Nat) :
    Option HTTPRequestMessage :=
  match i with
  | 0 => some { r with method := r.method ++ v }
  | 1 => some { r with path := r.path ++ v }
  | 2 => some { r with http := r.http ++ v }
  | _ => none

/-- The `for (i, v) in data.splitn(3, ...).enumerate()` loop of
`impl From<&BytesVec> for HTTPRequestMessage`. -/
def extendParts : Nat → List (List Nat) → HTTPRequestMessage → Option HTTPRequestMessage
  | _, [], r => some r
  | i, v :: rest, r => (r.extendIdx i v).bind (extendParts (i + 1) rest)

/-- `impl From<&BytesVec> for HTTPRequestMessage`, with the panic arm
surfaced as `none`.  Note: unlike the `http.rs` parser, there is no
truncation of any kind here. -/
def HTTPRequestMessage.ofBytesChecked (data : List Nat) : Option HTTPRequestMessage :=
  extendParts 0 (splitnSep 3 data) HTTPRequestMessage.new

/-- The parser as callers see it (the panic arm is proven unreachable). -/
def HTTPRequestMessage.ofBytes (data : List Nat) : HTTPRequestMessage :=
  (HTTPRequestMessage.ofBytesChecked data).getD HTTPRequestMessage.new

/-- `HTTPResponseMessage` from `main.rs`. -/
structure HTTPResponseMessage where
  http : List Nat
  code : Nat
  desc : List Nat
deriving DecidableEq

/-- `HTTPResponseMessage::new`: `VERSIONS[1]`, 404 Not Found. -/
def HTTPResponseMessage.new : HTTPResponseMessage :=
  { http := VERSIONS.getD 1 [], code := 404, desc := bytes ("Not Found") }

/-- `HTTPResponseMessage::status`. -/
def HTTPResponseMessage.status (r : HTTPResponseMessage) (code : Nat) (desc : List Nat) :
    HTTPResponseMessage :=
  { r with code := code, desc := desc }

/-- `HTTPResponseMessage::to_vec` from `main.rs` lines 127-139: the
response serializer.  It writes `<version> <code> <reason>` followed by two
CRLFs and nothing else — in particular no header line. -/
def HTTPResponseMessage.to_vec (r : HTTPResponseMessage) : List Nat :=
  r.http ++ [SEP] ++ natToBytes r.code ++ [SEP] ++ r.desc ++ CRLF ++ CRLF

/-- The status chain of the per-connection decision block (`main.rs` lines
230-238), applied to an already-parsed message. -/
def decideMessage (message : HTTPRequestMessage) : HTTPResponseMessage :=
  if !message.is_method_valid then
    HTTPResponseMessage.new.status 405 (bytes ("Method Not Allowed"))
  else if message.path.isEmpty || message.http.isEmpty then
    HTTPResponseMessage.new.status 414 (bytes ("URI Too Long"))
  else if !message.is_http_valid then
    HTTPResponseMessage.new.status 505 (bytes ("HTTP Version Not Supported"))
  else if message.path == bytes ("/healthz") then
    HTTPResponseMessage.new.status 200 (bytes ("OK"))
  else
    HTTPResponseMessage.new

/-- The per-connection decision block of `main.rs` lines 227-241: the gate
`!data.is_empty() && data.is_ascii()` guards the parse-and-classify chain,
everything else is 400 Bad Request. -/
def decideStatus (data : List Nat) : HTTPResponseMessage :=
  if !data.isEmpty && data.all (fun b => b ≤ 127) then
    decideMessage (HTTPRequestMessage.ofBytes data)
  else
    HTTPResponseMessage.new.status 400 (bytes ("Bad Request"))

/-- The six status values the decision block can produce. -/
def statusCatalog : List HTTPResponseMessage :=
  [HTTPResponseMessage.new.status 200 (bytes ("OK")),
   HTTPResponseMessage.new.status 400 (bytes ("Bad Request")),
   HTTPResponseMessage.new,
   HTTPResponseMessage.new.status 405 (bytes ("Method Not Allowed")),
   HTTPResponseMessage.new.status 414 (bytes ("URI Too Long")),
   HTTPResponseMessage.new.status 505 (bytes ("HTTP Version Not Supported"))]

end MainRs

/-! ## Helper lemmas about the terminator scan -/

theorem firstCR_eq_none (l : List Nat) (h : ∀ b ∈ l, b ≠ 13) : firstCR l = none := by
  induction l with
  | nil => rfl
  | cons x xs ih =>
    have hx : x ≠ 13 := h x (List.mem_cons_self x xs)
    simp only [firstCR, if_neg hx, ih (fun b hb => h b (List.mem_cons_of_mem x hb)),
      Option.map_none']

theorem mem_ne_of_firstCR_none (l : List Nat) (h : firstCR l = none) :
    ∀ b ∈ l, b ≠ 13 := by
  induction l with
  | nil => intro b hb; cases hb
  | cons x xs ih =>
    intro b hb
    by_cases hx : x = 13
    · simp [firstCR, hx] at h
    · simp only [firstCR, if_neg hx, Option.map_eq_none'] at h
      rcases List.mem_cons.mp hb with rfl | hb2
      · exact hx
      · exact ih h b hb2

theorem firstCR_append_none (xs ys : List Nat) (hx : firstCR xs = none)
    (hy : firstCR ys = none) : firstCR (xs ++ ys) = none := by
  induction xs with
  | nil => simpa using hy
  | cons a l ih =>
    by_cases ha : a = 13
    · simp [firstCR, ha] at hx
    · simp only [firstCR, if_neg ha, Option.map_eq_none'] at hx
      simp only [List.cons_append, firstCR, if_neg ha]
      show Option.map (· + 1) (firstCR (l ++ ys)) = none
      rw [ih hx, Option.map_none']

theorem firstCR_append_some (xs ys : List Nat) (p : Nat) (hx : firstCR xs = some p) :
    firstCR (xs ++ ys) = some p := by
  induction xs generalizing p with
  | nil => simp [firstCR] at hx
  | cons a l ih =>
    by_cases ha : a = 13
    · simp only [firstCR, if_pos ha] at hx
      simp only [List.cons_append, firstCR, if_pos ha, hx]
    · simp only [firstCR, if_neg ha, Option.map_eq_some'] at hx
      obtain ⟨q, hq, rfl⟩ := hx
      simp only [List.cons_append, firstCR, if_neg ha]
      show Option.map (· + 1) (firstCR (l ++ ys)) = some (q + 1)
      rw [ih q hq, Option.map_some']

theorem firstCR_some_lt (xs : List Nat) (p : Nat) (h : firstCR xs = some p) :
    p < xs.length := by
  induction xs generalizing p with
  | nil => simp [firstCR] at h
  | cons a l ih =>
    by_cases ha : a = 13
    · simp only [firstCR, if_pos ha, Option.some.injEq] at h
      simp only [List.length_cons]
      omega
    · simp only [firstCR, if_neg ha, Option.map_eq_some'] at h
      obtain ⟨q, hq, rfl⟩ := h
      have := ih q hq
      simp only [List.length_cons]
      omega

theorem takeWhile_of_firstCR_none (xs : List Nat) (h : firstCR xs = none) :
    xs.takeWhile (fun b => b != 13) = xs := by
  induction xs with
  | nil => rfl
  | cons a l ih =>
    by_cases ha : a = 13
    · simp [firstCR, ha] at h
    · simp only [firstCR, if_neg ha, Option.map_eq_none'] at h
      simp only [List.takeWhile_cons, show (a != 13) = true by simpa using ha, if_pos trivial,
        ih h]

theorem takeWhile_of_firstCR_some (xs : List Nat) (p : Nat) (h : firstCR xs = some p) :
    xs.takeWhile (fun b => b != 13) = xs.take p := by
  induction xs generalizing p with
  | nil => simp [firstCR] at h
  | cons a l ih =>
    by_cases ha : a = 13
    · simp only [firstCR, if_pos ha, Option.some.injEq] at h
      subst h
      simp [List.takeWhile_cons, ha]
    · simp only [firstCR, if_neg ha, Option.map_eq_some'] at h
      obtain ⟨q, hq, rfl⟩ := h
      simp only [List.takeWhile_cons, show (a != 13) = true by simpa using ha, List.take_succ_cons,
        ih q hq]
      simp

theorem takeWhile_append_of_firstCR_none (xs ys : List Nat) (h : firstCR xs = none) :
    (xs ++ ys).takeWhile (fun b => b != 13) = xs ++ ys.takeWhile (fun b => b != 13) := by
  induction xs with
  | nil => rfl
  | cons a l ih =>
    by_cases ha : a = 13
    · simp [firstCR, ha] at h
    · simp only [firstCR, if_neg ha, Option.map_eq_none'] at h
      simp only [List.cons_append, List.takeWhile_cons,
        show (a != 13) = true by simpa using ha, if_pos trivial, ih h]

theorem takeWhile_append_of_firstCR_some (xs ys : List Nat) (p : Nat)
    (h : firstCR xs = some p) :
    (xs ++ ys).takeWhile (fun b => b != 13) = xs.take p := by
  have h2 := firstCR_append_some xs ys p h
  have h3 := takeWhile_of_firstCR_some (xs ++ ys) p h2
  have hlt := firstCR_some_lt xs p h
  rw [h3, List.take_append_eq_append_take, Nat.sub_eq_zero_of_le (le_of_lt hlt),
    List.take_zero, List.append_nil]

/-! ## Helper lemmas about `splitn` and the parsers -/

theorem splitAtSep_eq_none (l : List Nat) (h : ∀ b ∈ l, b ≠ SEP) : splitAtSep l = none := by
  induction l with
  | nil => rfl
  | cons x xs ih =>
    have hx : x ≠ SEP := h x (List.mem_cons_self x xs)
    simp only [splitAtSep, if_neg hx, ih (fun b hb => h b (List.mem_cons_of_mem x hb)),
      Option.map_none']

theorem splitn3_shape (w : List Nat) :
    (∃ a, splitnSep 3 w = [a]) ∨ (∃ a b, splitnSep 3 w = [a, b]) ∨
      (∃ a b c, splitnSep 3 w = [a, b, c]) := by
  show (∃ a, splitnSep (1 + 2) w = [a]) ∨ _ ∨ _
  cases h1 : splitAtSep w with
  | none => exact Or.inl ⟨w, by simp only [splitnSep, h1]⟩
  | some pq =>
    obtain ⟨p, q⟩ := pq
    cases h2 : splitAtSep q with
    | none =>
      refine Or.inr (Or.inl ⟨p, q, ?_⟩)
      simp only [splitnSep, h1, h2]
    | some pq2 =>
      obtain ⟨p2, q2⟩ := pq2
      refine Or.inr (Or.inr ⟨p, p2, q2, ?_⟩)
      simp only [splitnSep, h1, h2]

theorem splitnSep3_no_sep (w : List Nat) (h : ∀ b ∈ w, b ≠ SEP) :
    splitnSep 3 w = [w] := by
  show splitnSep (1 + 2) w = [w]
  simp only [splitnSep, splitAtSep_eq_none w h]

/-- The `http.rs` parser on a single part. -/
theorem assignParts_one (a : List Nat) (r : HttpRs.RequestMessage) :
    HttpRs.assignParts 0 [a] r =
      some { r with method := if a.length > HttpRs.METHOD_CAP then a.take HttpRs.METHOD_CAP else a } := by
  simp [HttpRs.assignParts, HttpRs.RequestMessage.assign, Option.bind]

/-- The `http.rs` parser on two parts. -/
theorem assignParts_two (a b : List Nat) (r : HttpRs.RequestMessage) :
    HttpRs.assignParts 0 [a, b] r =
      some { r with
        method := if a.length > HttpRs.METHOD_CAP then a.take HttpRs.METHOD_CAP else a,
        path := if b.length > HttpRs.PATH_CAP then b.take HttpRs.PATH_CAP else b } := by
  simp [HttpRs.assignParts, HttpRs.RequestMessage.assign, Option.bind]

/-- The `http.rs` parser on three parts. -/
theorem assignParts_three (a b c : List Nat) (r : HttpRs.RequestMessage) :
    HttpRs.assignParts 0 [a, b, c] r =
      some { method := if a.length > HttpRs.METHOD_CAP then a.take HttpRs.METHOD_CAP else a,
             path := if b.length > HttpRs.PATH_CAP then b.take HttpRs.PATH_CAP else b,
             http := if c.length > HttpRs.VERSION_CAP then c.take HttpRs.VERSION_CAP else c } := by
  simp [HttpRs.assignParts, HttpRs.RequestMessage.assign, Option.bind]

/-- The `main.rs` parser on a single part. -/
theorem extendParts_one (a : List Nat) (r : MainRs.HTTPRequestMessage) :
    MainRs.extendParts 0 [a] r = some { r with method := r.method ++ a } := by
  simp [MainRs.extendParts, MainRs.HTTPRequestMessage.extendIdx, Option.bind]

/-- The `main.rs` parser on two parts. -/
theorem extendParts_two (a b : List Nat) (r : MainRs.HTTPRequestMessage) :
    MainRs.extendParts 0 [a, b] r =
      some { r with method := r.method ++ a, path := r.path ++ b } := by
  simp [MainRs.extendParts, MainRs.HTTPRequestMessage.extendIdx, Option.bind]

/-- The `main.rs` parser on three parts. -/
theorem extendParts_three (a b c : List Nat) (r : MainRs.HTTPRequestMessage) :
    MainRs.extendParts 0 [a, b, c] r =
      some { method := r.method ++ a, path := r.path ++ b, http := r.http ++ c } := by
  simp [MainRs.extendParts, MainRs.HTTPRequestMessage.extendIdx, Option.bind]

/-! ## The extractor loop invariant -/

theorem extractLoop_spec (rs : List ReadResult) :
    ∀ request buf : List Nat,
      buf.length = BUFFER_LENGTH → (∀ b ∈ buf, b ≠ 13) →
      request.length ≤ REQUEST_CAP → (∀ r ∈ rs, chunkFits r) →
      extractLoop rs request buf =
        request ++ ((deliveredBytes rs).takeWhile (fun b => b != 13)).take
          (REQUEST_CAP - request.length) := by
  induction rs with
  | nil => intro request buf _ _ _ _; simp [extractLoop, deliveredBytes]
  | cons r rest ih =>
    intro request buf hbuf hcr hreq hfits
    cases r with
    | err => simp [extractLoop, deliveredBytes]
    | ok d =>
      have hd16 : d.length ≤ BUFFER_LENGTH := hfits (ReadResult.ok d) (List.mem_cons_self _ _)
      by_cases h0 : 0 < d.length
      · have hdrop : ∀ b ∈ buf.drop d.length, b ≠ 13 :=
          fun b hb => hcr b (List.drop_subset _ _ hb)
        cases hfc : firstCR d with
        | some p =>
          have hfc2 : firstCR (refill buf d) = some p := firstCR_append_some _ _ _ hfc
          have hp : p < d.length := firstCR_some_lt _ _ hfc
          have hcrs : crSize (refill buf d) d.length = p := by simp [crSize, hfc2]
          have hmin : capSize request.length p = min (REQUEST_CAP - request.length) p := by
            unfold capSize; split <;> omega
          have hsz16 : capSize request.length p < BUFFER_LENGTH := by rw [hmin]; omega
          have htake : (refill buf d).take (capSize request.length p) =
              d.take (capSize request.length p) := by
            rw [refill, List.take_append_eq_append_take,
              Nat.sub_eq_zero_of_le (by rw [hmin]; omega), List.take_zero, List.append_nil]
          simp only [extractLoop, hcrs]
          rw [if_pos h0, if_pos hsz16, htake]
          simp only [deliveredBytes]
          by_cases hfull : d.length = BUFFER_LENGTH
          · rw [if_pos hfull, takeWhile_append_of_firstCR_some _ _ _ hfc, List.take_take, hmin]
          · rw [if_neg hfull, takeWhile_of_firstCR_some _ _ hfc, List.take_take, hmin]
        | none =>
          have hdcr : ∀ b ∈ d, b ≠ 13 := mem_ne_of_firstCR_none d hfc
          have hfc2 : firstCR (refill buf d) = none :=
            firstCR_append_none _ _ hfc (firstCR_eq_none _ hdrop)
          have hcrs : crSize (refill buf d) d.length = d.length := by simp [crSize, hfc2]
          simp only [extractLoop, hcrs]
          rw [if_pos h0]
          by_cases hfull : d.length = BUFFER_LENGTH
          · by_cases hcap : request.length + d.length > REQUEST_CAP
            · have hsz : capSize request.length d.length = REQUEST_CAP - request.length := by
                unfold capSize; rw [if_pos hcap]
              have hszlt : capSize request.length d.length < BUFFER_LENGTH := by
                rw [hsz]; omega
              have hidx0 : REQUEST_CAP - request.length - d.length = 0 := by omega
              have htake : (refill buf d).take (REQUEST_CAP - request.length) =
                  d.take (REQUEST_CAP - request.length) := by
                rw [refill, List.take_append_eq_append_take, hidx0, List.take_zero,
                  List.append_nil]
              rw [if_pos hszlt, hsz, htake]
              simp only [deliveredBytes, if_pos hfull]
              rw [takeWhile_append_of_firstCR_none _ _ hfc, List.take_append_eq_append_take,
                hidx0, List.take_zero, List.append_nil]
            · have hsz : capSize request.length d.length = BUFFER_LENGTH := by
                unfold capSize; rw [if_neg hcap, hfull]
              have hszlt : ¬ capSize request.length d.length < BUFFER_LENGTH := by
                rw [hsz]; omega
              have hbufnil : buf.drop d.length = [] := List.drop_eq_nil_of_le (by omega)
              have hrefill : refill buf d = d := by rw [refill, hbufnil, List.append_nil]
              have htake : (refill buf d).take (capSize request.length d.length) = d := by
                rw [hrefill, hsz, ← hfull, List.take_length]
              rw [if_neg hszlt, htake, hrefill]
              rw [ih (request ++ d) d hfull hdcr
                (by simp only [List.length_append]; omega)
                (fun r hr => hfits r (List.mem_cons_of_mem _ hr))]
              have hd_take : List.take (REQUEST_CAP - request.length) d = d :=
                List.take_of_length_le (by omega)
              have hidx : REQUEST_CAP - (request ++ d).length =
                  REQUEST_CAP - request.length - d.length := by
                simp only [List.length_append]; omega
              simp only [deliveredBytes, if_pos hfull]
              rw [takeWhile_append_of_firstCR_none _ _ hfc, List.take_append_eq_append_take,
                hd_take, hidx, List.append_assoc]
          · have hszle : capSize request.length d.length ≤ d.length := by
              unfold capSize; split <;> omega
            have hszlt : capSize request.length d.length < BUFFER_LENGTH := by omega
            have htake : (refill buf d).take (capSize request.length d.length) =
                d.take (capSize request.length d.length) := by
              rw [refill, List.take_append_eq_append_take, Nat.sub_eq_zero_of_le hszle,
                List.take_zero, List.append_nil]
            rw [if_pos hszlt, htake]
            simp only [deliveredBytes, if_neg hfull]
            rw [takeWhile_of_firstCR_none _ hfc]
            congr 1
            by_cases hcap : request.length + d.length > REQUEST_CAP
            · unfold capSize; rw [if_pos hcap]
            · unfold capSize; rw [if_neg hcap]
              rw [List.take_length, List.take_of_length_le (by omega)]
      · have hd0 : d = [] := List.length_eq_zero.mp (by omega)
        subst hd0
        simp [extractLoop, deliveredBytes, BUFFER_LENGTH]

/-- `extract` returns the delivered bytes up to the first carriage return,
truncated to `REQUEST_CAP`; the shared correctness fact behind the
extractor claims. -/
theorem extract_eq (rs : List ReadResult) (hfits : ∀ r ∈ rs, chunkFits r) :
    extract rs =
      ((deliveredBytes rs).takeWhile (fun b => b != 13)).take REQUEST_CAP := by
  rw [extract, extractLoop_spec rs [] (List.replicate BUFFER_LENGTH 0)
    (List.length_replicate _ _)
    (fun b hb => by rw [List.eq_of_mem_replicate hb]; omega)
    (by simp)
    hfits]
  simp

/-! ## Small bridges and auxiliary facts -/

theorem contains_true_iff (l : List (List Nat)) (a : List Nat) :
    l.contains a = true ↔ a ∈ l := by
  simp

theorem trunc_length_le (src : List Nat) (cap : Nat) :
    (if src.length > cap then src.take cap else src).length ≤ cap := by
  split
  · simp only [List.length_take]; omega
  · omega

/-- Every field of the `http.rs` parse is in truncated form for some part. -/
theorem ofBytes_fields (v : List Nat) :
    ∃ a b c : List Nat,
      HttpRs.RequestMessage.ofBytes v =
        { method := if a.length > HttpRs.METHOD_CAP then a.take HttpRs.METHOD_CAP else a,
          path := if b.length > HttpRs.PATH_CAP then b.take HttpRs.PATH_CAP else b,
          http := if c.length > HttpRs.VERSION_CAP then c.take HttpRs.VERSION_CAP else c } := by
  rcases splitn3_shape (HttpRs.capSlice v) with ⟨a, h⟩ | ⟨a, b, h⟩ | ⟨a, b, c, h⟩
  · refine ⟨a, [], [], ?_⟩
    unfold HttpRs.RequestMessage.ofBytes HttpRs.RequestMessage.ofBytesChecked
    rw [h, assignParts_one]
    simp [HttpRs.RequestMessage.new]
  · refine ⟨a, b, [], ?_⟩
    unfold HttpRs.RequestMessage.ofBytes HttpRs.RequestMessage.ofBytesChecked
    rw [h, assignParts_two]
    simp [HttpRs.RequestMessage.new]
  · refine ⟨a, b, c, ?_⟩
    unfold HttpRs.RequestMessage.ofBytes HttpRs.RequestMessage.ofBytesChecked
    rw [h, assignParts_three]
    simp [HttpRs.RequestMessage.new]

/-- A full-chunk carriage-return-free stream delivers a replicated block. -/
theorem delivered_replicate (n : Nat) :
    deliveredBytes (List.replicate n (ReadResult.ok (List.replicate BUFFER_LENGTH 65))) =
      List.replicate (n * BUFFER_LENGTH) 65 := by
  induction n with
  | zero => simp [deliveredBytes]
  | succ k ih =>
    rw [List.replicate_succ]
    have hstep : deliveredBytes (ReadResult.ok (List.replicate BUFFER_LENGTH 65) ::
        List.replicate k (ReadResult.ok (List.replicate BUFFER_LENGTH 65))) =
        List.replicate BUFFER_LENGTH 65 ++
          deliveredBytes (List.replicate k (ReadResult.ok (List.replicate BUFFER_LENGTH 65))) := by
      simp [deliveredBytes]
    rw [hstep, ih, ← List.replicate_add]
    congr 1
    simp only [BUFFER_LENGTH]
    omega

/-- Under the gate of the decision block, deciding is classifying the parse. -/
theorem decideStatus_eq_decideMessage (data : List Nat) (hne : data ≠ [])
    (hascii : ∀ b ∈ data, b ≤ 127) :
    MainRs.decideStatus data =
      MainRs.decideMessage (MainRs.HTTPRequestMessage.ofBytes data) := by
  unfold MainRs.decideStatus
  rw [if_pos]
  simp only [Bool.and_eq_true, Bool.not_eq_true', List.all_eq_true, decide_eq_true_eq]
  refine ⟨?_, hascii⟩
  cases data with
  | nil => exact absurd rfl hne
  | cons x xs => rfl

/-! ## Claim theorems -/

/-- C1 (amended): for a non-empty all-ASCII line whose parsed method is in
the allowed method set, if the parsed path is empty or the parsed version
field is empty, the decision block returns 414 URI Too Long.  (The block
never inspects whether the path starts with a slash.) -/
theorem decide_414_of_missing_field (data : List Nat) (hne : data ≠ [])
    (hascii : ∀ b ∈ data, b ≤ 127)
    (hm : (MainRs.HTTPRequestMessage.ofBytes data).method ∈ MainRs.METHODS)
    (hpv : (MainRs.HTTPRequestMessage.ofBytes data).path = [] ∨
      (MainRs.HTTPRequestMessage.ofBytes data).http = []) :
    (MainRs.decideStatus data).code = 414 := by
  rw [decideStatus_eq_decideMessage data hne hascii]
  unfold MainRs.decideMessage
  rw [if_neg (by simp [MainRs.HTTPRequestMessage.is_method_valid, hm]),
    if_pos (by rcases hpv with h | h <;> simp [h])]
  rfl

/-- C1 witness: deciding on the parse of `"GET"` returns 414. -/
theorem decide_414_of_missing_field_witness :
    (MainRs.decideStatus (bytes ("GET"))).code = 414 :=
  decide_414_of_missing_field (bytes ("GET")) (by decide) (by decide) (by decide) (by decide)

/-- C1 counterexample: for the line `"GET x HTTP/1.1"` every premise of the
claim holds with the path not starting with a slash, yet the decision block
returns 404, not 414. -/
theorem decide_414_of_missing_field_cex :
    bytes ("GET x HTTP/1.1") ≠ [] ∧
    (∀ b ∈ bytes ("GET x HTTP/1.1"), b ≤ 127) ∧
    (MainRs.HTTPRequestMessage.ofBytes (bytes ("GET x HTTP/1.1"))).method ∈ MainRs.METHODS ∧
    (MainRs.HTTPRequestMessage.ofBytes (bytes ("GET x HTTP/1.1"))).path ≠ [] ∧
    (MainRs.HTTPRequestMessage.ofBytes (bytes ("GET x HTTP/1.1"))).path.take 1 ≠ [47] ∧
    (MainRs.decideStatus (bytes ("GET x HTTP/1.1"))).code = 404 := by
  decide

/-- C2 (amended): the serializer writes exactly
`<version> 0x20 <code> 0x20 <reason> CRLF CRLF` for each status of the
catalog — with no header line; in particular serializing 200 OK yields
exactly the bytes of `"HTTP/1.1 200 OK\r\n\r\n"`. -/
theorem to_vec_catalog_exact :
    MainRs.statusCatalog.map MainRs.HTTPResponseMessage.to_vec =
      [bytes ("HTTP/1.1 200 OK") ++ CRLF ++ CRLF,
       bytes ("HTTP/1.1 400 Bad Request") ++ CRLF ++ CRLF,
       bytes ("HTTP/1.1 404 Not Found") ++ CRLF ++ CRLF,
       bytes ("HTTP/1.1 405 Method Not Allowed") ++ CRLF ++ CRLF,
       bytes ("HTTP/1.1 414 URI Too Long") ++ CRLF ++ CRLF,
       bytes ("HTTP/1.1 505 HTTP Version Not Supported") ++ CRLF ++ CRLF] := by
  decide

/-- C2 counterexample: serializing the 200 OK status does not produce the
claimed bytes `"HTTP/1.1 200 OK\r\nConnection: close\r\n\r\n"` — the
serializer emits no `Connection: close` header line. -/
theorem to_vec_200_no_header_cex :
    MainRs.HTTPResponseMessage.to_vec
        (MainRs.HTTPResponseMessage.new.status 200 (bytes ("OK"))) ≠
      bytes ("HTTP/1.1 200 OK") ++ CRLF ++ bytes ("Connection: close") ++ CRLF ++ CRLF := by
  decide

/-- C3: for a non-empty all-ASCII line whose parsed method is not a member
of the fixed method set, the decision block returns 405 Method Not Allowed,
whatever the path and version fields hold. -/
theorem decide_405_of_unknown_method (data : List Nat) (hne : data ≠ [])
    (hascii : ∀ b ∈ data, b ≤ 127)
    (hm : (MainRs.HTTPRequestMessage.ofBytes data).method ∉ MainRs.METHODS) :
    (MainRs.decideStatus data).code = 405 := by
  rw [decideStatus_eq_decideMessage data hne hascii]
  unfold MainRs.decideMessage
  rw [if_pos (by simp [MainRs.HTTPRequestMessage.is_method_valid, hm])]
  rfl

/-- C3 witness: the line `"FOO /x HTTP/1.1"` is answered with 405. -/
theorem decide_405_of_unknown_method_witness :
    (MainRs.decideStatus (bytes ("FOO /x HTTP/1.1"))).code = 405 :=
  decide_405_of_unknown_method (bytes ("FOO /x HTTP/1.1")) (by decide) (by decide) (by decide)

/-- C4 (amended): for a non-empty all-ASCII line with an allowed method, a
non-empty path starting with a slash and a non-empty version field, a
version outside the decision block's version list
{HTTP/1.0, HTTP/1.1, HTTP/2} is answered with 505. -/
theorem decide_505_of_unknown_version (data : List Nat) (hne : data ≠ [])
    (hascii : ∀ b ∈ data, b ≤ 127)
    (hm : (MainRs.HTTPRequestMessage.ofBytes data).method ∈ MainRs.METHODS)
    (hp : (MainRs.HTTPRequestMessage.ofBytes data).path ≠ [])
    (_hslash : (MainRs.HTTPRequestMessage.ofBytes data).path.take 1 = [47])
    (hh : (MainRs.HTTPRequestMessage.ofBytes data).http ≠ [])
    (hv : (MainRs.HTTPRequestMessage.ofBytes data).http ∉ MainRs.VERSIONS) :
    (MainRs.decideStatus data).code = 505 := by
  rw [decideStatus_eq_decideMessage data hne hascii]
  unfold MainRs.decideMessage
  rw [if_neg (by simp [MainRs.HTTPRequestMessage.is_method_valid, hm]),
    if_neg (by simp [hp, hh]),
    if_pos (by simp [MainRs.HTTPRequestMessage.is_http_valid, hv])]
  rfl

/-- C4 witness: the line `"GET /x HTTP/9"` is answered with 505. -/
theorem decide_505_of_unknown_version_witness :
    (MainRs.decideStatus (bytes ("GET /x HTTP/9"))).code = 505 :=
  decide_505_of_unknown_version (bytes ("GET /x HTTP/9")) (by decide) (by decide) (by decide)
    (by decide) (by decide) (by decide) (by decide)

/-- C4 counterexample: for the line `"GET /x HTTP/2"` every premise of the
claim holds — in particular the version is not a member of
{HTTP/1.0, HTTP/1.1} — yet the decision block returns 404, not 505,
because its own version list (`main.rs` line 18) includes `HTTP/2`. -/
theorem decide_505_of_unknown_version_cex :
    bytes ("GET /x HTTP/2") ≠ [] ∧
    (∀ b ∈ bytes ("GET /x HTTP/2"), b ≤ 127) ∧
    (MainRs.HTTPRequestMessage.ofBytes (bytes ("GET /x HTTP/2"))).method ∈ MainRs.METHODS ∧
    (MainRs.HTTPRequestMessage.ofBytes (bytes ("GET /x HTTP/2"))).path.take 1 = [47] ∧
    (MainRs.HTTPRequestMessage.ofBytes (bytes ("GET /x HTTP/2"))).http = bytes ("HTTP/2") ∧
    (MainRs.HTTPRequestMessage.ofBytes (bytes ("GET /x HTTP/2"))).http ∉
      [bytes ("HTTP/1.0"), bytes ("HTTP/1.1")] ∧
    (MainRs.decideStatus (bytes ("GET /x HTTP/2"))).code = 404 := by
  decide

/-- C5: for every stream of reads that fit the 16-byte buffer, the
extractor returns exactly the delivered bytes up to (but not including) the
first carriage return, truncated to `REQUEST_CAP` — whichever comes
first. -/
theorem extract_line_upto_cr_or_cap (rs : List ReadResult)
    (hfits : ∀ r ∈ rs, chunkFits r) :
    extract rs =
      ((deliveredBytes rs).takeWhile (fun b => b != 13)).take REQUEST_CAP :=
  extract_eq rs hfits

/-- C5 witness: a single 16-byte read carrying `"GET / HTTP/1.1\r\n"`. -/
theorem extract_line_upto_cr_or_cap_witness :
    extract [ReadResult.ok ((bytes ("GET / HTTP/1.1")) ++ [13, 10])] =
      ((deliveredBytes [ReadResult.ok ((bytes ("GET / HTTP/1.1")) ++ [13, 10])]).takeWhile
        (fun b => b != 13)).take REQUEST_CAP :=
  extract_line_upto_cr_or_cap [ReadResult.ok ((bytes ("GET / HTTP/1.1")) ++ [13, 10])]
    (by decide)

/-- C6: parsing `"OPTIONSBUTLONGER /test HTTP/1.1"` with the truncating
parser yields method exactly `"OPTIONS"` (the 7-byte method cap), deciding
on that parse returns 404, and in general every parsed field is bounded by
its field cap (method 7, path `REQUEST_CAP` minus the two other caps minus
2, version 8). -/
theorem parse_truncates_to_field_caps :
    (HttpRs.RequestMessage.ofBytes (bytes ("OPTIONSBUTLONGER /test HTTP/1.1"))).method =
      bytes ("OPTIONS") ∧
    ((HttpRs.RequestMessage.ofBytes (bytes ("OPTIONSBUTLONGER /test HTTP/1.1"))).response).code
      = 404 ∧
    ∀ v : List Nat,
      (HttpRs.RequestMessage.ofBytes v).method.length ≤ HttpRs.METHOD_CAP ∧
      (HttpRs.RequestMessage.ofBytes v).path.length ≤ HttpRs.PATH_CAP ∧
      (HttpRs.RequestMessage.ofBytes v).http.length ≤ HttpRs.VERSION_CAP := by
  refine ⟨by decide, by decide, ?_⟩
  intro v
  obtain ⟨a, b, c, hv⟩ := ofBytes_fields v
  rw [hv]
  exact ⟨trunc_length_le a _, trunc_length_le b _, trunc_length_le c _⟩

/-- C7: an input shorter than the 7-byte method cap with no space byte
parses — under both parsers — to method = whole input, empty path, empty
version. -/
theorem parse_short_no_space (v : List Nat) (hlen : v.length < HttpRs.METHOD_CAP)
    (hsp : ∀ b ∈ v, b ≠ SEP) :
    HttpRs.RequestMessage.ofBytes v = { method := v, path := [], http := [] } ∧
    MainRs.HTTPRequestMessage.ofBytes v = { method := v, path := [], http := [] } := by
  have hsplit : splitnSep 3 v = [v] := splitnSep3_no_sep v hsp
  have hlen7 : v.length < 7 := by
    simpa [HttpRs.METHOD_CAP] using hlen
  have hslice : HttpRs.capSlice v = v := by
    unfold HttpRs.capSlice
    rw [if_neg]
    simp only [REQUEST_CAP, BUFFER_LENGTH]
    omega
  constructor
  · unfold HttpRs.RequestMessage.ofBytes HttpRs.RequestMessage.ofBytesChecked
    rw [hslice, hsplit, assignParts_one]
    simp only [Option.getD_some]
    have : ¬ v.length > HttpRs.METHOD_CAP := by
      simp only [HttpRs.METHOD_CAP]; omega
    simp [HttpRs.RequestMessage.new, this]
  · unfold MainRs.HTTPRequestMessage.ofBytes MainRs.HTTPRequestMessage.ofBytesChecked
    rw [hsplit, extendParts_one]
    simp [MainRs.HTTPRequestMessage.new]

/-- C7 witness: the 4-byte space-free input `"HEAD"`. -/
theorem parse_short_no_space_witness :
    HttpRs.RequestMessage.ofBytes (bytes ("HEAD")) =
      { method := bytes ("HEAD"), path := [], http := [] } ∧
    MainRs.HTTPRequestMessage.ofBytes (bytes ("HEAD")) =
      { method := bytes ("HEAD"), path := [], http := [] } :=
  parse_short_no_space (bytes ("HEAD")) (by decide) (by decide)

/-- C8: the extractor's result never exceeds `REQUEST_CAP` bytes; and a
stream delivering exactly `REQUEST_CAP` bytes with no carriage return is
returned whole — truncated at the cap, never an error. -/
theorem extract_bounded_by_cap (rs : List ReadResult)
    (hfits : ∀ r ∈ rs, chunkFits r) :
    (extract rs).length ≤ REQUEST_CAP ∧
      ((deliveredBytes rs).length = REQUEST_CAP →
        (∀ b ∈ deliveredBytes rs, b ≠ 13) →
        extract rs = deliveredBytes rs) := by
  constructor
  · rw [extract_eq rs hfits]
    simp only [List.length_take]
    omega
  · intro hlen hcr
    rw [extract_eq rs hfits, takeWhile_of_firstCR_none _ (firstCR_eq_none _ hcr),
      List.take_of_length_le (by omega)]

/-- C8 witness: 4096 full 16-byte reads of the byte 65 deliver exactly
`REQUEST_CAP` bytes and are returned whole. -/
theorem extract_bounded_by_cap_witness :
    extract (List.replicate 4096 (ReadResult.ok (List.replicate BUFFER_LENGTH 65))) =
      deliveredBytes (List.replicate 4096 (ReadResult.ok (List.replicate BUFFER_LENGTH 65))) ∧
    (extract (List.replicate 4096 (ReadResult.ok (List.replicate BUFFER_LENGTH 65)))).length ≤
      REQUEST_CAP := by
  have hfits : ∀ r ∈ List.replicate 4096 (ReadResult.ok (List.replicate BUFFER_LENGTH 65)),
      chunkFits r := by
    intro r hr
    rw [List.eq_of_mem_replicate hr]
    simp [chunkFits]
  have hdel := delivered_replicate 4096
  refine ⟨(extract_bounded_by_cap _ hfits).2 ?_ ?_, (extract_bounded_by_cap _ hfits).1⟩
  · rw [hdel, List.length_replicate]
    decide
  · rw [hdel]
    intro b hb
    rw [List.eq_of_mem_replicate hb]
    decide

/-- C9: both request-line parsers are total and panic-free: the
`unreachable!()` arm of the `http.rs` loop and the invalid-index panic arms
of `main.rs` (modelled as the `none` results) are never reached, for any
input whatsoever. -/
theorem parsers_never_panic (v : List Nat) :
    (HttpRs.RequestMessage.ofBytesChecked v).isSome = true ∧
    (MainRs.HTTPRequestMessage.ofBytesChecked v).isSome = true := by
  constructor
  · unfold HttpRs.RequestMessage.ofBytesChecked
    rcases splitn3_shape (HttpRs.capSlice v) with ⟨a, h⟩ | ⟨a, b, h⟩ | ⟨a, b, c, h⟩ <;>
      rw [h] <;>
      simp [assignParts_one, assignParts_two, assignParts_three]
  · unfold MainRs.HTTPRequestMessage.ofBytesChecked
    rcases splitn3_shape v with ⟨a, h⟩ | ⟨a, b, h⟩ | ⟨a, b, c, h⟩ <;>
      rw [h] <;>
      simp [extendParts_one, extendParts_two, extendParts_three]

/-- C10: the extractor's result never contains a carriage-return byte. -/
theorem extract_never_contains_cr (rs : List ReadResult)
    (hfits : ∀ r ∈ rs, chunkFits r) : (13 : Nat) ∉ extract rs := by
  rw [extract_eq rs hfits]
  intro hmem
  have h2 : (13 : Nat) ∈ (deliveredBytes rs).takeWhile (fun b => b != 13) :=
    List.take_subset _ _ hmem
  have h3 := List.mem_takeWhile_imp h2
  simp at h3

/-- C10 witness: a read whose carriage return sits mid-chunk. -/
theorem extract_never_contains_cr_witness :
    (13 : Nat) ∉ extract [ReadResult.ok ((bytes ("GET /healthz")) ++ [13, 10, 10, 10])] :=
  extract_never_contains_cr [ReadResult.ok ((bytes ("GET /healthz")) ++ [13, 10, 10, 10])]
    (by decide)
